import Mathlib

/-!
Shallow embedding of the extraction–normalization–filter–dedup pipeline of
the apartment_finder repository (olx_scraper.py and otodom_scraper.py).

Python floats are modelled as rationals (ℚ); the numeric values handled by
the program (prices, areas, divisions thereof) stay well inside the range
where float and rational comparison agree on the inputs considered.
Strings are handled through their character lists; Python's `in` on strings
is substring containment, modelled by `containsSub`.
-/

namespace ApartmentFinder

/-- Whitespace characters: Python's `str.strip` default set and the regex
class `\s`, restricted to ASCII whitespace plus the no-break space (the
whitespace characters that occur in the listing texts the program reads). -/
def isPyWhite (c : Char) : Bool :=
  c = ' ' || c = '\t' || c = '\n' || c = '\r' ||
  c = Char.ofNat 11 || c = Char.ofNat 12 || c = Char.ofNat 160

/-- Python `str.strip()` on a character list: drop whitespace at both ends. -/
def pyStrip (l : List Char) : List Char :=
  ((l.dropWhile isPyWhite).reverse.dropWhile isPyWhite).reverse

/-- Python `str.lower()` restricted to ASCII letters (the floor descriptors
fed to it contain only digits, `/` and the keyword `parter`). -/
def lowerChar (c : Char) : Char :=
  if 'A' ≤ c ∧ c ≤ 'Z' then Char.ofNat (c.toNat + 32) else c

/-- Split a character list on a separator character, Python `str.split(sep)`:
`splitOnChar '/' "3/8"` gives `["3", "8"]` as char lists. -/
def splitOnChar (sep : Char) : List Char → List (List Char)
  | [] => [[]]
  | c :: cs =>
    if c = sep then [] :: splitOnChar sep cs
    else
      match splitOnChar sep cs with
      | [] => [[c]]
      | g :: gs => (c :: g) :: gs

/-- Does the first list start with the second? -/
def startsWith : List Char → List Char → Bool
  | _, [] => true
  | [], _ :: _ => false
  | c :: cs, p :: ps => c = p && startsWith cs ps

/-- Substring containment on character lists: Python's `pat in hay`. -/
def containsSub : List Char → List Char → Bool
  | [], p => p.isEmpty
  | c :: cs, p => startsWith (c :: cs) p || containsSub cs p

/-- Value of a list of decimal digit characters. -/
def digitsToNat (l : List Char) : Nat :=
  l.foldl (fun a c => 10 * a + (c.toNat - 48)) 0

/-- A non-empty all-digit character list. -/
def isDigits (l : List Char) : Bool :=
  !l.isEmpty && l.all Char.isDigit

/-- Python `int(s)` on an already-stripped string: optional sign followed by
digits (underscore digit grouping, accepted by Python, is not modelled; no
input of the program contains it). `none` models a raised `ValueError`. -/
def pyInt (l : List Char) : Option Int :=
  match l with
  | '-' :: rest => if isDigits rest then some (-(digitsToNat rest : Int)) else none
  | '+' :: rest => if isDigits rest then some (digitsToNat rest : Int) else none
  | _ => if isDigits l then some (digitsToNat l : Int) else none

/-! ## Floor model: `parse_floor` and `is_floor_valid` (olx_scraper.py lines 52-83) -/

/-- One alternative of the regex group `(parter|\d+)`: the ground keyword
maps to 0, a digit run to its value. -/
def floorTok (l : List Char) : Option Int :=
  if l = "parter".data then some 0
  else if isDigits l then some (digitsToNat l : Int) else none

/-- Fallback branches of `parse_floor` after the `N/M` regex fails:
standalone `parter`, then Python `int(s)`, else `(None, None)`. -/
def parseFloorFallback (s : List Char) : Option Int × Option Int :=
  if s = "parter".data then (some 0, none)
  else
    match pyInt s with
    | some n => (some n, none)
    | none => (none, none)

/-- `parse_floor` from olx_scraper.py: `'3/8' -> (3, 8)`,
`'parter/4' -> (0, 4)`, standalone `'parter' -> (0, None)`, a bare integer
`n -> (n, None)`, anything else `(None, None)`. The anchored regex
`^(parter|\d+)/(parter|\d+)$` is modelled by splitting on `/` into exactly
two groups, each matching `(parter|\d+)`; neither alternative can contain
`/`, so the two renderings coincide. -/
def parse_floor (floor_str : String) : Option Int × Option Int :=
  if floor_str = "" || floor_str = "N/A" then (none, none)
  else
    let s := (pyStrip floor_str.data).map lowerChar
    match splitOnChar '/' s with
    | [a, b] =>
      match floorTok a, floorTok b with
      | some c, some t => (some c, some t)
      | _, _ => parseFloorFallback s
    | _ => parseFloorFallback s

/-- `is_floor_valid` from olx_scraper.py: reject ground/first floor and top
floor, accept unknown. -/
def is_floor_valid (floor_str : String) : Bool :=
  match parse_floor floor_str with
  | (none, _) => true
  | (some current, total) =>
    if current ≤ 1 then false
    else
      match total with
      | some t => if current ≥ t then false else true
      | none => true

/-- Modelled from the spec: the floor policy of spec section 4.2, written
from its words ("true when current is unknown; false when current ≤ 1;
false when total is known and current ≥ total; true otherwise"), applied to
an already-parsed position. -/
def floorPolicySpec : Option Int × Option Int → Bool
  | (none, _) => true
  | (some current, total) =>
    if current ≤ 1 then false
    else if total.elim false (fun t => current ≥ t) then false
    else true

/-! ## Numeric normalization: `extract_number` (olx_scraper.py lines 138-143) -/

/-- Character class `[\d\s]` of the `extract_number` regex. -/
def isNumWhite (c : Char) : Bool :=
  c.isDigit || isPyWhite c

/-- Leftmost greedy match of `[\d\s]+[,.]?\d*` on a character list, `none`
when no character of the class occurs. Greedy matching needs no
backtracking here: after the maximal `[\d\s]+` run the next character is
not a digit, so `[,.]?` and `\d*` are determined. -/
def regexSearch : List Char → Option (List Char)
  | [] => none
  | c :: cs =>
    if isNumWhite c then
      let r1 := List.takeWhile isNumWhite (c :: cs)
      match List.dropWhile isNumWhite (c :: cs) with
      | d :: ds =>
        if d = ',' || d = '.' then some (r1 ++ d :: ds.takeWhile Char.isDigit)
        else some r1
      | [] => some r1
    else regexSearch cs

/-- Python `float(s)` on the shapes `extract_number` can feed it: digit and
whitespace characters with at most one `.`. Leading/trailing whitespace is
allowed, internal whitespace or an empty/dot-only remainder raises
(`none`). -/
def pyFloat (l : List Char) : Option ℚ :=
  let t := pyStrip l
  if t.any isPyWhite then none
  else
    match splitOnChar '.' t with
    | [a] => if isDigits a then some (digitsToNat a : ℚ) else none
    | [a, b] =>
      if (a.all Char.isDigit && b.all Char.isDigit) && !(a.isEmpty && b.isEmpty) then
        some ((digitsToNat a : ℚ) + (digitsToNat b : ℚ) / (10 : ℚ) ^ b.length)
      else none
    | _ => none

/-- `extract_number` from olx_scraper.py: remove all spaces, search for
`[\d\s]+[,.]?\d*`, turn the comma into a dot and convert with `float`;
no match yields 0. `Except.error ()` models the uncaught `ValueError`
raised by `float` when the matched group keeps non-space whitespace. -/
def extract_number (text : String) : Except Unit ℚ :=
  let t := text.data.filter (fun c => c ≠ ' ')
  match regexSearch t with
  | none => Except.ok 0
  | some g =>
    match pyFloat ((g.map (fun c => if c = ',' then '.' else c)).filter (fun c => c ≠ ' ')) with
    | some v => Except.ok v
    | none => Except.error ()

/-! ## Listing identifiers: `link.split("/")[-1].replace(".html", "")` -/

/-- Remove every (non-overlapping, left to right) occurrence of a non-empty
token from a character list: Python `str.replace(pat, "")`. -/
def stripToken (pat : List Char) : List Char → List Char
  | [] => []
  | c :: cs =>
    if !pat.isEmpty && startsWith (c :: cs) pat then
      stripToken pat (List.drop (pat.length - 1) cs)
    else c :: stripToken pat cs
termination_by l => l.length
decreasing_by
  · simp only [List.length_cons]
    have := List.length_drop (pat.length - 1) cs
    omega
  · simp [List.length_cons]

/-- Listing identifier derived from a link, olx_scraper.py lines 413/567:
last `/`-separated path segment with every `.html` removed. -/
def listingId (link : String) : String :=
  String.mk (stripToken ".html".data ((splitOnChar '/' link.data).getLastD []))

/-! ## Qualification filter (olx_scraper.py lines 589-623) -/

/-- The detail record returned by `fetch_listing_details`: `area` and
`rooms` are `None` when no pattern matched, `price` defaults to 0,
`has_elevator`/`has_balcony` default to `False`. -/
structure Details where
  title : String
  price : ℚ
  location : String
  area : Option ℚ
  rooms : Option Int
  floor : String
  has_elevator : Bool
  has_balcony : Bool
deriving DecidableEq, Repr

/-- The distinct rejection diagnostics printed by the filter. -/
inductive Reason where
  | noElevator
  | areaRange
  | roomRange
  | floorPosition
  | pricePerArea
deriving DecidableEq, Repr

/-- Outcome of the qualification filter: acceptance carries the computed
unit price when it exists. -/
inductive FilterResult where
  | accepted (unit_price : Option ℚ)
  | rejected (reason : Reason)
deriving DecidableEq, Repr

def MIN_AREA : ℚ := 35
def MAX_AREA : ℚ := 55
def MIN_ROOMS : Int := 2
def MAX_ROOMS : Int := 3
def MAX_PRICE_PER_M2 : ℚ := 12000

/-- The area check `if area and (area < MIN_AREA or area > MAX_AREA)`:
Python truthiness makes `None` and `0` both pass (0.0 is falsy). -/
def areaOutOfRange (area : Option ℚ) : Bool :=
  match area with
  | none => false
  | some a => if a = 0 then false else decide (a < MIN_AREA) || decide (MAX_AREA < a)

/-- The rooms check `if rooms and (rooms < MIN_ROOMS or rooms > MAX_ROOMS)`. -/
def roomsOutOfRange (rooms : Option Int) : Bool :=
  match rooms with
  | none => false
  | some r => if r = 0 then false else decide (r < MIN_ROOMS) || decide (MAX_ROOMS < r)

/-- `price / area` when computable: `if area and area > 0 and price > 0`. -/
def unitPrice (price : ℚ) (area : Option ℚ) : Option ℚ :=
  match area with
  | some a => if 0 < a ∧ 0 < price then some (price / a) else none
  | none => none

/-- The filter cascade of `scrape_olx` (lines 598-623): elevator, area
range, room range, floor validity, then price per area; the first failing
check rejects, acceptance attaches the unit price when computable. -/
def evaluate (d : Details) : FilterResult :=
  if !d.has_elevator then FilterResult.rejected Reason.noElevator
  else if areaOutOfRange d.area then FilterResult.rejected Reason.areaRange
  else if roomsOutOfRange d.rooms then FilterResult.rejected Reason.roomRange
  else if !is_floor_valid d.floor then FilterResult.rejected Reason.floorPosition
  else
    match unitPrice d.price d.area with
    | some ppm =>
      if MAX_PRICE_PER_M2 < ppm then FilterResult.rejected Reason.pricePerArea
      else FilterResult.accepted (some ppm)
    | none => FilterResult.accepted none

/-! ## Elevator extraction (olx_scraper.py lines 330-350) -/

def negPhrases : List String := ["nie ma wind", "brak wind", "bez wind"]

def posElevatorWords : List String :=
  ["winda", "windą", "windy", "windami", "elevator", "lift"]

def negPhrasesPage : List String :=
  negPhrases ++ ["\"winda\",\"value\":\"nie\"", "winda: nie"]

/-- Python `any(p in hay for p in pats)`. -/
def containsAnyStr (hay : String) (pats : List String) : Bool :=
  pats.any (fun p => containsSub hay.data p.data)

/-- Elevator detection of `fetch_listing_details`: negation phrases in the
description force `False`; otherwise positive keywords in the description;
otherwise the same two-step check against the (similar-listings-stripped)
page source, whose negation family adds two JSON patterns. `desc` is the
description element text, `page` the cleaned page source, both lowercased
upstream. -/
def hasElevatorExtract (desc page : String) : Bool :=
  let negD := containsAnyStr desc negPhrases
  let hasD := if negD then false else containsAnyStr desc posElevatorWords
  if !hasD && !negD then
    if containsAnyStr page negPhrasesPage then false
    else containsAnyStr page posElevatorWords
  else hasD

/-! ## Detail-page price selection (olx_scraper.py lines 238-269) -/

/-- The price selector loop: each entry is (text passed the `zł`/`m²`
test, extracted value). On a passing text the price is assigned, and the
loop breaks only when the value exceeds 10000; a smaller assigned value
stays and may be overwritten by a later selector. -/
def selectorPrice (price : ℚ) : List (Bool × ℚ) → ℚ
  | [] => price
  | (ok, v) :: rest =>
    if ok then
      if 10000 < v then v else selectorPrice v rest
    else selectorPrice price rest

/-- Detail-page price: run the selector loop from 0; only when the result
is still 0 fall back to the page-source regex value (`none` when that
pattern finds nothing). The fallback value is assigned unconditionally;
its `> 10000` comparison in the source only guards a log line. -/
def detailPrice (selectors : List (Bool × ℚ)) (fallback : Option ℚ) : ℚ :=
  let p := selectorPrice 0 selectors
  if p = 0 then
    match fallback with
    | some v => v
    | none => 0
  else p

/-! ## Dedup ledger (olx_scraper.py lines 38-49, otodom_scraper.py 46-57) -/

/-- `set(json.load(f))`: the file's identifier array read back as a set. -/
def load_seen_listings (file : List String) : Finset String :=
  file.toFinset

/-- `json.dump(list(seen), f)`: one concrete enumeration of the set (Python
enumerates in unspecified order; theorems about loading quantify over every
enumeration). -/
def save_seen_listings (seen : Finset String) : List String :=
  seen.sort (· ≤ ·)

/-- `seen.add(i)`. -/
def mark (i : String) (seen : Finset String) : Finset String :=
  insert i seen

/-- `i in seen`. -/
def ledgerContains (i : String) (seen : Finset String) : Bool :=
  decide (i ∈ seen)

/-! ## Pipeline drivers -/

/-- Observable pipeline events: skipping a seen id, marking an id as seen,
running detail extraction for an id, the filter verdicts, handing the
output list to the message sink, persisting the ledger. -/
inductive Ev where
  | skip (id : String)
  | mark (id : String)
  | extract (id : String)
  | accept (id : String)
  | reject (id : String)
  | notify
  | persist
deriving DecidableEq, Repr

/-- `x in seen` on the in-run seen list. -/
def pymem (x : String) (s : List String) : Bool :=
  decide (x ∈ s)

/-- An emitted output entry: identifier, the elevator evidence of the
record it was built from, the computed unit price, and the link. -/
structure OutRec where
  id : String
  has_elevator : Bool
  price_per_m2 : Option ℚ
  link : String
deriving DecidableEq, Repr

/-- `scrape_olx` (lines 562-643) over its per-listing inputs: each link
paired with the detail record its page yields (`none` models a failed
fetch). Returns the final seen list, the output listings in order, and the
event trace. Per link: compute the id; skip if seen; otherwise mark as
seen, fetch details, run the filter, and collect on acceptance. -/
def olxScrape (seen : List String) : List (String × Option Details) → List String × List OutRec × List Ev
  | [] => (seen, [], [])
  | (link, d?) :: rest =>
    let id := listingId link
    if pymem id seen then
      let r := olxScrape seen rest
      (r.1, r.2.1, Ev.skip id :: r.2.2)
    else
      match d? with
      | none =>
        let r := olxScrape (id :: seen) rest
        (r.1, r.2.1, Ev.mark id :: Ev.extract id :: r.2.2)
      | some d =>
        match evaluate d with
        | FilterResult.accepted pp =>
          let r := olxScrape (id :: seen) rest
          (r.1, ⟨id, d.has_elevator, pp, link⟩ :: r.2.1,
            Ev.mark id :: Ev.extract id :: Ev.accept id :: r.2.2)
        | FilterResult.rejected _ =>
          let r := olxScrape (id :: seen) rest
          (r.1, r.2.1, Ev.mark id :: Ev.extract id :: Ev.reject id :: r.2.2)

/-- A search-result card of `scrape_otodom_search`, with the fields its
card text yields. -/
structure Card where
  link : String
  title : String
  price : ℚ
  area : Option ℚ
  rooms : Option Int
  floor : String
  location : String
deriving DecidableEq, Repr

/-- `scrape_otodom_search` (olx_scraper.py lines 399-521): cards whose link
does not contain `otodom.pl` are skipped outright; otherwise skip-if-seen,
mark immediately, read the card fields, filter on floor only (the URL
already filters area, rooms, price per m² and elevator server-side), and
emit with `has_elevator` hard-coded to true. -/
def otodomSearchScrape (seen : List String) : List Card → List String × List OutRec × List Ev
  | [] => (seen, [], [])
  | c :: rest =>
    if !containsSub c.link.data "otodom.pl".data then otodomSearchScrape seen rest
    else
      let id := listingId c.link
      if pymem id seen then
        let r := otodomSearchScrape seen rest
        (r.1, r.2.1, Ev.skip id :: r.2.2)
      else
        if !is_floor_valid c.floor then
          let r := otodomSearchScrape (id :: seen) rest
          (r.1, r.2.1, Ev.mark id :: Ev.extract id :: Ev.reject id :: r.2.2)
        else
          let r := otodomSearchScrape (id :: seen) rest
          (r.1, ⟨id, true, unitPrice c.price c.area, c.link⟩ :: r.2.1,
            Ev.mark id :: Ev.extract id :: Ev.accept id :: r.2.2)

/-- `main` of olx_scraper.py (lines 717-757): run both scrape phases over
one shared seen list, notify only when the combined output is non-empty,
then always persist. -/
def olxMain (inputs : List (String × Option Details)) (cards : List Card) (seen₀ : List String) : List Ev :=
  let r₁ := olxScrape seen₀ inputs
  let r₂ := otodomSearchScrape r₁.1 cards
  r₁.2.2 ++ r₂.2.2 ++
    (if (r₁.2.1 ++ r₂.2.1).isEmpty then [] else [Ev.notify]) ++ [Ev.persist]

/-- Combined output list of olx_scraper.py's `main`. -/
def olxMainOut (inputs : List (String × Option Details)) (cards : List Card) (seen₀ : List String) : List OutRec :=
  let r₁ := olxScrape seen₀ inputs
  let r₂ := otodomSearchScrape r₁.1 cards
  r₁.2.1 ++ r₂.2.1

/-- Card ids extracted by `scrape_listings` of otodom_scraper.py: every
card with a non-empty id attribute is extracted (no seen check there). -/
def otodomExtractedIds (cards : List String) : List String :=
  cards.filter (fun i => i ≠ "")

/-- `[l for l in listings if l["id"] not in seen]` of otodom_scraper.py. -/
def otodomNewIds (cards : List String) (seen₀ : List String) : List String :=
  (otodomExtractedIds cards).filter (fun i => !pymem i seen₀)

/-- `main` of otodom_scraper.py (lines 258-291): extract every card, then
filter out seen ids; only when new listings exist, notify, mark them all,
and persist. With no new listings nothing is marked or persisted. -/
def otodomMain (cards : List String) (seen₀ : List String) : List Ev :=
  (otodomExtractedIds cards).map Ev.extract ++
    (if (otodomNewIds cards seen₀).isEmpty then []
     else Ev.notify :: (otodomNewIds cards seen₀).map Ev.mark ++ [Ev.persist])

/-- Does `a` occur at a position strictly before some occurrence of `b`? -/
def occursBefore (a b : Ev) : List Ev → Bool
  | [] => false
  | e :: es => (e = a && decide (b ∈ es)) || occursBefore a b es

/-- Every `extract i` event is immediately preceded by `mark i`; the first
argument carries the previous event. -/
def extractsMarkedFrom (prev : Option Ev) : List Ev → Bool
  | [] => true
  | e :: t =>
    (match e with
     | Ev.extract i => decide (prev = some (Ev.mark i))
     | _ => true) && extractsMarkedFrom (some e) t

/-! ## Character-level helper lemmas -/

theorem toNat_bounds_of_isDigit (c : Char) (h : c.isDigit = true) :
    48 ≤ c.toNat ∧ c.toNat ≤ 57 := by
  simp only [Char.isDigit, Bool.and_eq_true, decide_eq_true_eq, UInt32.le_def,
    BitVec.le_def] at h
  exact h

theorem isPyWhite_of_digit (c : Char) (h : c.isDigit = true) : isPyWhite c = false := by
  obtain ⟨hl, hr⟩ := toNat_bounds_of_isDigit c h
  simp only [isPyWhite, Bool.or_eq_false_iff, decide_eq_false_iff_not]
  refine ⟨⟨⟨⟨⟨⟨?_, ?_⟩, ?_⟩, ?_⟩, ?_⟩, ?_⟩, ?_⟩ <;>
    (intro he; subst he; simp at hl hr)

theorem lowerChar_digit (c : Char) (h : c.isDigit = true) : lowerChar c = c := by
  obtain ⟨hl, hr⟩ := toNat_bounds_of_isDigit c h
  unfold lowerChar
  rw [if_neg]
  rintro ⟨h1, h2⟩
  have hA : (65 : Nat) ≤ c.toNat := by
    simp only [Char.le_def, UInt32.le_def, BitVec.le_def] at h1
    exact h1
  omega

theorem ne_slash_of_digit (c : Char) (h : c.isDigit = true) : c ≠ '/' := by
  intro he
  subst he
  exact absurd h (by decide)

theorem map_lowerChar_digits (l : List Char) (h : ∀ c ∈ l, c.isDigit = true) :
    l.map lowerChar = l := by
  induction l with
  | nil => rfl
  | cons a t ih =>
    simp only [List.map_cons, List.cons.injEq]
    exact ⟨lowerChar_digit a (h a (by simp)), ih (fun c hc => h c (by simp [hc]))⟩

theorem dropWhile_eq_self_of_none (p : Char → Bool) (l : List Char)
    (h : ∀ c ∈ l, p c = false) : l.dropWhile p = l := by
  cases l with
  | nil => rfl
  | cons a t => rw [List.dropWhile_cons, h a (by simp), if_neg (by simp)]

theorem pyStrip_eq_self (l : List Char) (h : ∀ c ∈ l, isPyWhite c = false) :
    pyStrip l = l := by
  unfold pyStrip
  rw [dropWhile_eq_self_of_none _ _ h,
    dropWhile_eq_self_of_none _ _ (fun c hc => h c (List.mem_reverse.mp hc)),
    List.reverse_reverse]

theorem splitOnChar_ne_nil (sep : Char) (l : List Char) : splitOnChar sep l ≠ [] := by
  cases l with
  | nil => simp [splitOnChar]
  | cons a t =>
    rw [splitOnChar]
    by_cases h : a = sep
    · simp [h]
    · rw [if_neg h]
      rcases hs : splitOnChar sep t with _ | ⟨g, gs⟩ <;> simp

theorem splitOnChar_append_sep (sep : Char) (l1 l2 : List Char) (h : sep ∉ l1) :
    splitOnChar sep (l1 ++ sep :: l2) = l1 :: splitOnChar sep l2 := by
  induction l1 with
  | nil => simp [splitOnChar]
  | cons a t ih =>
    have ha : a ≠ sep := fun he => h (by simp [he])
    rw [List.cons_append, splitOnChar, if_neg ha, ih (fun hm => h (by simp [hm]))]

theorem regexSearch_none (l : List Char) (h : ∀ c ∈ l, isNumWhite c = false) :
    regexSearch l = none := by
  induction l with
  | nil => rfl
  | cons a t ih =>
    rw [regexSearch, if_neg (by simp [h a (by simp)])]
    exact ih (fun c hc => h c (by simp [hc]))

instance : DecidableEq (Except Unit ℚ) := fun a b =>
  match a, b with
  | Except.ok x, Except.ok y => decidable_of_iff (x = y) (by simp)
  | Except.error x, Except.error y => decidable_of_iff (x = y) (by simp)
  | Except.ok _, Except.error _ => isFalse (by simp)
  | Except.error _, Except.ok _ => isFalse (by simp)

/-! ## Pipeline helper lemmas -/

theorem evaluate_accepted_elevator (d : Details) (pp : Option ℚ)
    (h : evaluate d = FilterResult.accepted pp) : d.has_elevator = true := by
  cases hE : d.has_elevator
  · rw [evaluate] at h
    simp [hE] at h
  · rfl

theorem olxScrape_cons_seen (seen : List String) (link : String)
    (d : Option Details) (rest : List (String × Option Details))
    (h : pymem (listingId link) seen = true) :
    olxScrape seen ((link, d) :: rest) =
      ((olxScrape seen rest).1, (olxScrape seen rest).2.1,
        Ev.skip (listingId link) :: (olxScrape seen rest).2.2) := by
  simp [olxScrape, h]

theorem olxScrape_cons_fail (seen : List String) (link : String)
    (rest : List (String × Option Details))
    (h : pymem (listingId link) seen = false) :
    olxScrape seen ((link, none) :: rest) =
      ((olxScrape (listingId link :: seen) rest).1,
        (olxScrape (listingId link :: seen) rest).2.1,
        Ev.mark (listingId link) :: Ev.extract (listingId link) ::
          (olxScrape (listingId link :: seen) rest).2.2) := by
  simp [olxScrape, h]

theorem olxScrape_cons_acc (seen : List String) (link : String) (d : Details)
    (pp : Option ℚ) (rest : List (String × Option Details))
    (h : pymem (listingId link) seen = false)
    (hev : evaluate d = FilterResult.accepted pp) :
    olxScrape seen ((link, some d) :: rest) =
      ((olxScrape (listingId link :: seen) rest).1,
        ⟨listingId link, d.has_elevator, pp, link⟩ ::
          (olxScrape (listingId link :: seen) rest).2.1,
        Ev.mark (listingId link) :: Ev.extract (listingId link) ::
          Ev.accept (listingId link) ::
          (olxScrape (listingId link :: seen) rest).2.2) := by
  simp [olxScrape, h, hev]

theorem olxScrape_cons_rej (seen : List String) (link : String) (d : Details)
    (rr : Reason) (rest : List (String × Option Details))
    (h : pymem (listingId link) seen = false)
    (hev : evaluate d = FilterResult.rejected rr) :
    olxScrape seen ((link, some d) :: rest) =
      ((olxScrape (listingId link :: seen) rest).1,
        (olxScrape (listingId link :: seen) rest).2.1,
        Ev.mark (listingId link) :: Ev.extract (listingId link) ::
          Ev.reject (listingId link) ::
          (olxScrape (listingId link :: seen) rest).2.2) := by
  simp [olxScrape, h, hev]

theorem otodomSearchScrape_cons_dom (seen : List String) (c : Card)
    (rest : List Card) (h : containsSub c.link.data "otodom.pl".data = false) :
    otodomSearchScrape seen (c :: rest) = otodomSearchScrape seen rest := by
  simp [otodomSearchScrape, h]

theorem otodomSearchScrape_cons_seen (seen : List String) (c : Card)
    (rest : List Card) (hd : containsSub c.link.data "otodom.pl".data = true)
    (h : pymem (listingId c.link) seen = true) :
    otodomSearchScrape seen (c :: rest) =
      ((otodomSearchScrape seen rest).1, (otodomSearchScrape seen rest).2.1,
        Ev.skip (listingId c.link) :: (otodomSearchScrape seen rest).2.2) := by
  simp [otodomSearchScrape, hd, h]

theorem otodomSearchScrape_cons_rej (seen : List String) (c : Card)
    (rest : List Card) (hd : containsSub c.link.data "otodom.pl".data = true)
    (h : pymem (listingId c.link) seen = false)
    (hf : is_floor_valid c.floor = false) :
    otodomSearchScrape seen (c :: rest) =
      ((otodomSearchScrape (listingId c.link :: seen) rest).1,
        (otodomSearchScrape (listingId c.link :: seen) rest).2.1,
        Ev.mark (listingId c.link) :: Ev.extract (listingId c.link) ::
          Ev.reject (listingId c.link) ::
          (otodomSearchScrape (listingId c.link :: seen) rest).2.2) := by
  simp [otodomSearchScrape, hd, h, hf]

theorem otodomSearchScrape_cons_acc (seen : List String) (c : Card)
    (rest : List Card) (hd : containsSub c.link.data "otodom.pl".data = true)
    (h : pymem (listingId c.link) seen = false)
    (hf : is_floor_valid c.floor = true) :
    otodomSearchScrape seen (c :: rest) =
      ((otodomSearchScrape (listingId c.link :: seen) rest).1,
        ⟨listingId c.link, true, unitPrice c.price c.area, c.link⟩ ::
          (otodomSearchScrape (listingId c.link :: seen) rest).2.1,
        Ev.mark (listingId c.link) :: Ev.extract (listingId c.link) ::
          Ev.accept (listingId c.link) ::
          (otodomSearchScrape (listingId c.link :: seen) rest).2.2) := by
  simp [otodomSearchScrape, hd, h, hf]

theorem olxScrape_seen_sub (inputs : List (String × Option Details)) :
    ∀ (seen : List String) (x : String), x ∈ seen → x ∈ (olxScrape seen inputs).1 := by
  induction inputs with
  | nil => intro seen x h; simpa [olxScrape] using h
  | cons p rest ih =>
    intro seen x h
    obtain ⟨link, d⟩ := p
    cases hm : pymem (listingId link) seen
    · cases d with
      | none =>
        rw [olxScrape_cons_fail seen link rest hm]
        exact ih _ x (by simp [h])
      | some d0 =>
        cases hev : evaluate d0 with
        | accepted pp =>
          rw [olxScrape_cons_acc seen link d0 pp rest hm hev]
          exact ih _ x (by simp [h])
        | rejected rr =>
          rw [olxScrape_cons_rej seen link d0 rr rest hm hev]
          exact ih _ x (by simp [h])
    · rw [olxScrape_cons_seen seen link d rest hm]
      exact ih seen x h

theorem olxScrape_no_extract (inputs : List (String × Option Details)) :
    ∀ (seen : List String) (id : String), id ∈ seen →
      Ev.extract id ∉ (olxScrape seen inputs).2.2 := by
  induction inputs with
  | nil => intro seen id h; simp [olxScrape]
  | cons p rest ih =>
    intro seen id h
    obtain ⟨link, d⟩ := p
    cases hm : pymem (listingId link) seen
    · have hne : id ≠ listingId link := by
        intro he
        rw [← he] at hm
        simp [pymem, h] at hm
      cases d with
      | none =>
        rw [olxScrape_cons_fail seen link rest hm]
        simp only [List.mem_cons, not_or]
        exact ⟨by simp, by simp [hne], ih _ id (by simp [h])⟩
      | some d0 =>
        cases hev : evaluate d0 with
        | accepted pp =>
          rw [olxScrape_cons_acc seen link d0 pp rest hm hev]
          simp only [List.mem_cons, not_or]
          exact ⟨by simp, by simp [hne], by simp, ih _ id (by simp [h])⟩
        | rejected rr =>
          rw [olxScrape_cons_rej seen link d0 rr rest hm hev]
          simp only [List.mem_cons, not_or]
          exact ⟨by simp, by simp [hne], by simp, ih _ id (by simp [h])⟩
    · rw [olxScrape_cons_seen seen link d rest hm]
      simp only [List.mem_cons, not_or]
      exact ⟨by simp, ih seen id h⟩

theorem olxScrape_marked (inputs : List (String × Option Details)) :
    ∀ (seen : List String) (prev : Option Ev),
      extractsMarkedFrom prev (olxScrape seen inputs).2.2 = true := by
  induction inputs with
  | nil => intro seen prev; rfl
  | cons p rest ih =>
    intro seen prev
    obtain ⟨link, d⟩ := p
    cases hm : pymem (listingId link) seen
    · cases d with
      | none =>
        rw [olxScrape_cons_fail seen link rest hm]
        simp [extractsMarkedFrom, ih]
      | some d0 =>
        cases hev : evaluate d0 with
        | accepted pp =>
          rw [olxScrape_cons_acc seen link d0 pp rest hm hev]
          simp [extractsMarkedFrom, ih]
        | rejected rr =>
          rw [olxScrape_cons_rej seen link d0 rr rest hm hev]
          simp [extractsMarkedFrom, ih]
    · rw [olxScrape_cons_seen seen link d rest hm]
      simp [extractsMarkedFrom, ih]

theorem olxScrape_mem_seen (inputs : List (String × Option Details)) :
    ∀ (seen : List String) (link : String) (d : Option Details),
      (link, d) ∈ inputs → listingId link ∈ (olxScrape seen inputs).1 := by
  induction inputs with
  | nil => intro seen link d h; simp at h
  | cons p rest ih =>
    intro seen link d h
    obtain ⟨link0, d0⟩ := p
    rcases List.mem_cons.mp h with he | hin
    · have he1 : link0 = link := congrArg Prod.fst he.symm
      subst he1
      cases hm : pymem (listingId link0) seen
      · cases d0 with
        | none =>
          rw [olxScrape_cons_fail seen link0 rest hm]
          exact olxScrape_seen_sub rest _ _ (by simp)
        | some dd =>
          cases hev : evaluate dd with
          | accepted pp =>
            rw [olxScrape_cons_acc seen link0 dd pp rest hm hev]
            exact olxScrape_seen_sub rest _ _ (by simp)
          | rejected rr =>
            rw [olxScrape_cons_rej seen link0 dd rr rest hm hev]
            exact olxScrape_seen_sub rest _ _ (by simp)
      · rw [olxScrape_cons_seen seen link0 d0 rest hm]
        exact olxScrape_seen_sub rest seen _ (by simpa [pymem] using hm)
    · cases hm : pymem (listingId link0) seen
      · cases d0 with
        | none =>
          rw [olxScrape_cons_fail seen link0 rest hm]
          exact ih _ link d hin
        | some dd =>
          cases hev : evaluate dd with
          | accepted pp =>
            rw [olxScrape_cons_acc seen link0 dd pp rest hm hev]
            exact ih _ link d hin
          | rejected rr =>
            rw [olxScrape_cons_rej seen link0 dd rr rest hm hev]
            exact ih _ link d hin
      · rw [olxScrape_cons_seen seen link0 d0 rest hm]
        exact ih seen link d hin

theorem olxScrape_out_elevator (inputs : List (String × Option Details)) :
    ∀ (seen : List String) (r : OutRec), r ∈ (olxScrape seen inputs).2.1 →
      r.has_elevator = true := by
  induction inputs with
  | nil => intro seen r h; simp [olxScrape] at h
  | cons p rest ih =>
    intro seen r h
    obtain ⟨link, d⟩ := p
    cases hm : pymem (listingId link) seen
    · cases d with
      | none =>
        rw [olxScrape_cons_fail seen link rest hm] at h
        exact ih _ r h
      | some d0 =>
        cases hev : evaluate d0 with
        | accepted pp =>
          rw [olxScrape_cons_acc seen link d0 pp rest hm hev] at h
          rcases List.mem_cons.mp h with he | hin
          · rw [he]
            exact evaluate_accepted_elevator d0 pp hev
          · exact ih _ r hin
        | rejected rr =>
          rw [olxScrape_cons_rej seen link d0 rr rest hm hev] at h
          exact ih _ r h
    · rw [olxScrape_cons_seen seen link d rest hm] at h
      exact ih seen r h

theorem olxScrape_no_misc (inputs : List (String × Option Details)) :
    ∀ seen : List String, Ev.notify ∉ (olxScrape seen inputs).2.2 ∧
      Ev.persist ∉ (olxScrape seen inputs).2.2 := by
  induction inputs with
  | nil => intro seen; simp [olxScrape]
  | cons p rest ih =>
    intro seen
    obtain ⟨link, d⟩ := p
    cases hm : pymem (listingId link) seen
    · cases d with
      | none =>
        rw [olxScrape_cons_fail seen link rest hm]
        simpa using ih (listingId link :: seen)
      | some d0 =>
        cases hev : evaluate d0 with
        | accepted pp =>
          rw [olxScrape_cons_acc seen link d0 pp rest hm hev]
          simpa using ih (listingId link :: seen)
        | rejected rr =>
          rw [olxScrape_cons_rej seen link d0 rr rest hm hev]
          simpa using ih (listingId link :: seen)
    · rw [olxScrape_cons_seen seen link d rest hm]
      simpa using ih seen

theorem otodomSearchScrape_no_extract (cards : List Card) :
    ∀ (seen : List String) (id : String), id ∈ seen →
      Ev.extract id ∉ (otodomSearchScrape seen cards).2.2 := by
  induction cards with
  | nil => intro seen id h; simp [otodomSearchScrape]
  | cons c rest ih =>
    intro seen id h
    cases hd : containsSub c.link.data "otodom.pl".data
    · rw [otodomSearchScrape_cons_dom seen c rest hd]
      exact ih seen id h
    · cases hm : pymem (listingId c.link) seen
      · have hne : id ≠ listingId c.link := by
          intro he
          rw [← he] at hm
          simp [pymem, h] at hm
        cases hf : is_floor_valid c.floor
        · rw [otodomSearchScrape_cons_rej seen c rest hd hm hf]
          simp only [List.mem_cons, not_or]
          exact ⟨by simp, by simp [hne], by simp, ih _ id (by simp [h])⟩
        · rw [otodomSearchScrape_cons_acc seen c rest hd hm hf]
          simp only [List.mem_cons, not_or]
          exact ⟨by simp, by simp [hne], by simp, ih _ id (by simp [h])⟩
      · rw [otodomSearchScrape_cons_seen seen c rest hd hm]
        simp only [List.mem_cons, not_or]
        exact ⟨by simp, ih seen id h⟩

theorem otodomSearchScrape_marked (cards : List Card) :
    ∀ (seen : List String) (prev : Option Ev),
      extractsMarkedFrom prev (otodomSearchScrape seen cards).2.2 = true := by
  induction cards with
  | nil => intro seen prev; rfl
  | cons c rest ih =>
    intro seen prev
    cases hd : containsSub c.link.data "otodom.pl".data
    · rw [otodomSearchScrape_cons_dom seen c rest hd]
      exact ih seen prev
    · cases hm : pymem (listingId c.link) seen
      · cases hf : is_floor_valid c.floor
        · rw [otodomSearchScrape_cons_rej seen c rest hd hm hf]
          simp [extractsMarkedFrom, ih]
        · rw [otodomSearchScrape_cons_acc seen c rest hd hm hf]
          simp [extractsMarkedFrom, ih]
      · rw [otodomSearchScrape_cons_seen seen c rest hd hm]
        simp [extractsMarkedFrom, ih]

theorem otodomSearchScrape_out_elevator (cards : List Card) :
    ∀ (seen : List String) (r : OutRec), r ∈ (otodomSearchScrape seen cards).2.1 →
      r.has_elevator = true := by
  induction cards with
  | nil => intro seen r h; simp [otodomSearchScrape] at h
  | cons c rest ih =>
    intro seen r h
    cases hd : containsSub c.link.data "otodom.pl".data
    · rw [otodomSearchScrape_cons_dom seen c rest hd] at h
      exact ih seen r h
    · cases hm : pymem (listingId c.link) seen
      · cases hf : is_floor_valid c.floor
        · rw [otodomSearchScrape_cons_rej seen c rest hd hm hf] at h
          exact ih _ r h
        · rw [otodomSearchScrape_cons_acc seen c rest hd hm hf] at h
          rcases List.mem_cons.mp h with he | hin
          · rw [he]
          · exact ih _ r hin
      · rw [otodomSearchScrape_cons_seen seen c rest hd hm] at h
        exact ih seen r h

theorem otodomSearchScrape_no_misc (cards : List Card) :
    ∀ seen : List String, Ev.notify ∉ (otodomSearchScrape seen cards).2.2 ∧
      Ev.persist ∉ (otodomSearchScrape seen cards).2.2 := by
  induction cards with
  | nil => intro seen; simp [otodomSearchScrape]
  | cons c rest ih =>
    intro seen
    cases hd : containsSub c.link.data "otodom.pl".data
    · rw [otodomSearchScrape_cons_dom seen c rest hd]
      exact ih seen
    · cases hm : pymem (listingId c.link) seen
      · cases hf : is_floor_valid c.floor
        · rw [otodomSearchScrape_cons_rej seen c rest hd hm hf]
          simpa using ih (listingId c.link :: seen)
        · rw [otodomSearchScrape_cons_acc seen c rest hd hm hf]
          simpa using ih (listingId c.link :: seen)
      · rw [otodomSearchScrape_cons_seen seen c rest hd hm]
        simpa using ih seen

theorem occursBefore_append_right (a b : Ev) (l m : List Ev)
    (h : occursBefore a b m = true) : occursBefore a b (l ++ m) = true := by
  induction l with
  | nil => simpa
  | cons e t ih => simp [occursBefore, ih]

theorem occursBefore_append_not_mem (a b : Ev) (l m : List Ev) (h : a ∉ l) :
    occursBefore a b (l ++ m) = occursBefore a b m := by
  induction l with
  | nil => rfl
  | cons e t ih =>
    have he : e ≠ a := fun hh => h (by simp [hh])
    rw [List.cons_append, occursBefore, ih (fun hm => h (by simp [hm]))]
    simp [he]

/-! ## Claim theorems -/

theorem olxMain_eq (inputs : List (String × Option Details)) (cards : List Card)
    (seen0 : List String) :
    olxMain inputs cards seen0 =
      (olxScrape seen0 inputs).2.2 ++
        ((otodomSearchScrape (olxScrape seen0 inputs).1 cards).2.2 ++
          ((if ((olxScrape seen0 inputs).2.1 ++
              (otodomSearchScrape (olxScrape seen0 inputs).1 cards).2.1).isEmpty
            then [] else [Ev.notify]) ++ [Ev.persist])) := by
  simp [olxMain]

theorem olxMainOut_eq (inputs : List (String × Option Details)) (cards : List Card)
    (seen0 : List String) :
    olxMainOut inputs cards seen0 =
      (olxScrape seen0 inputs).2.1 ++
        (otodomSearchScrape (olxScrape seen0 inputs).1 cards).2.1 := by
  simp [olxMainOut]


/-- Claim C1: the qualification filter evaluates elevator, area range,
room range, floor validity and unit price in that order, the first failing
check rejecting with its distinct reason; with area known and positive and
price positive the unit price price/area is attached on acceptance and
rejects exactly when it exceeds 12000; an uncomputable unit price passes
the price check. -/
theorem qualification_filter_evaluation :
    (∀ d : Details, d.has_elevator = false →
      evaluate d = FilterResult.rejected Reason.noElevator) ∧
    (∀ (d : Details) (a : ℚ), d.has_elevator = true → d.area = some a →
      0 < a → (a < MIN_AREA ∨ MAX_AREA < a) →
      evaluate d = FilterResult.rejected Reason.areaRange) ∧
    (∀ (d : Details) (r : Int), d.has_elevator = true →
      areaOutOfRange d.area = false → d.rooms = some r → r ≠ 0 →
      (r < MIN_ROOMS ∨ MAX_ROOMS < r) →
      evaluate d = FilterResult.rejected Reason.roomRange) ∧
    (∀ d : Details, d.has_elevator = true → areaOutOfRange d.area = false →
      roomsOutOfRange d.rooms = false → is_floor_valid d.floor = false →
      evaluate d = FilterResult.rejected Reason.floorPosition) ∧
    (∀ (d : Details) (a : ℚ), d.has_elevator = true →
      areaOutOfRange d.area = false → roomsOutOfRange d.rooms = false →
      is_floor_valid d.floor = true → d.area = some a → 0 < a → 0 < d.price →
      ((MAX_PRICE_PER_M2 < d.price / a →
          evaluate d = FilterResult.rejected Reason.pricePerArea) ∧
        (d.price / a ≤ MAX_PRICE_PER_M2 →
          evaluate d = FilterResult.accepted (some (d.price / a))))) ∧
    (∀ d : Details, d.has_elevator = true → areaOutOfRange d.area = false →
      roomsOutOfRange d.rooms = false → is_floor_valid d.floor = true →
      unitPrice d.price d.area = none →
      evaluate d = FilterResult.accepted none) ∧
    evaluate ⟨"t", 450000, "loc", some 45, some 2, "3/6", true, true⟩ =
      FilterResult.accepted (some 10000) ∧
    evaluate ⟨"t", 0, "loc", none, none, "2/5", true, true⟩ =
      FilterResult.accepted none := by
  refine ⟨fun d h => ?_, fun d a h1 h2 h3 h4 => ?_, fun d r h1 hA h2 h3 h4 => ?_,
    fun d h1 hA hR h4 => ?_, fun d a h1 hA hR hF h5 h6 h7 => ?_,
    fun d h1 hA hR hF h5 => ?_, by with_unfolding_all rfl, by decide⟩
  · simp [evaluate, h]
  · have hAr : areaOutOfRange d.area = true := by
      rcases h4 with h4 | h4 <;> simp [h2, areaOutOfRange, ne_of_gt h3, h4]
    simp [evaluate, h1, hAr]
  · have hRo : roomsOutOfRange d.rooms = true := by
      rcases h4 with h4 | h4 <;> simp [h2, roomsOutOfRange, h3, h4]
    simp [evaluate, h1, hA, hRo]
  · simp [evaluate, h1, hA, hR, h4]
  · have hup : unitPrice d.price d.area = some (d.price / a) := by
      rw [h5]
      simp [unitPrice, h6, h7]
    refine ⟨fun hgt => ?_, fun hle => ?_⟩
    · simp [evaluate, h1, hA, hR, hF, hup, hgt]
    · simp [evaluate, h1, hA, hR, hF, hup, not_lt.mpr hle]
  · simp [evaluate, h1, hA, hR, hF, h5]

/-- Claim C1 witness: the filter components applied at concrete records
(scenario with too-high unit price and one accepted at the bound). -/
theorem qualification_filter_evaluation_witness :
    evaluate ⟨"t", 500000, "loc", some 40, some 2, "3/6", false, true⟩ =
      FilterResult.rejected Reason.noElevator ∧
    evaluate ⟨"t", 600000, "loc", some 50, some 3, "4/8", true, true⟩ =
      FilterResult.accepted (some ((600000 : ℚ) / 50)) :=
  ⟨qualification_filter_evaluation.1 _ rfl,
    (qualification_filter_evaluation.2.2.2.2.1
      ⟨"t", 600000, "loc", some 50, some 3, "4/8", true, true⟩ 50 rfl
      (by decide) (by decide) (by decide) rfl (by decide) (by decide)).2
      (by norm_num [MAX_PRICE_PER_M2])⟩

/-- Claim C2: an absent-or-false elevator field rejects the record with the
no-elevator reason regardless of all other fields, and every record
emitted by either scrape pipeline carries elevator evidence
(has_elevator = true). -/
theorem elevator_hard_requirement :
    (∀ d : Details, d.has_elevator = false →
      evaluate d = FilterResult.rejected Reason.noElevator) ∧
    (∀ (inputs : List (String × Option Details)) (seen : List String)
      (r : OutRec), r ∈ (olxScrape seen inputs).2.1 → r.has_elevator = true) ∧
    (∀ (cards : List Card) (seen : List String) (r : OutRec),
      r ∈ (otodomSearchScrape seen cards).2.1 → r.has_elevator = true) := by
  refine ⟨fun d h => by simp [evaluate, h], ?_, ?_⟩
  · intro inputs seen r h
    exact olxScrape_out_elevator inputs seen r h
  · intro cards seen r h
    exact otodomSearchScrape_out_elevator cards seen r h

/-- Claim C2 witness: the hard requirement applied at a concrete record
that passes every other check. -/
theorem elevator_hard_requirement_witness :
    evaluate ⟨"t", 450000, "loc", some 45, some 2, "3/6", false, true⟩ =
      FilterResult.rejected Reason.noElevator :=
  elevator_hard_requirement.1 _ rfl

/-- Claim C3 counterexample: in otodom_scraper.py, an identifier already in
the ledger is still extracted — the seen check runs only after all cards
have been extracted — refuting "extraction and filtering are not run for
it". -/
theorem dedup_immediate_mark_cex :
    pymem "a" ["a"] = true ∧ Ev.extract "a" ∈ otodomMain ["a"] ["a"] := by decide

/-- Claim C3 as amended: in olx_scraper.py both scrape pipelines skip
already-seen identifiers before extraction and mark a new identifier
immediately before its extraction and filtering, whether it is later
accepted or rejected; in otodom_scraper.py, however, extraction runs for
every card (seen or not), and new identifiers are marked only after
filtering and notification. -/
theorem dedup_immediate_mark_amended :
    (∀ (inputs : List (String × Option Details)) (seen : List String)
      (id : String), id ∈ seen → Ev.extract id ∉ (olxScrape seen inputs).2.2) ∧
    (∀ (cards : List Card) (seen : List String) (id : String), id ∈ seen →
      Ev.extract id ∉ (otodomSearchScrape seen cards).2.2) ∧
    (∀ (inputs : List (String × Option Details)) (seen : List String)
      (prev : Option Ev),
      extractsMarkedFrom prev (olxScrape seen inputs).2.2 = true) ∧
    (∀ (cards : List Card) (seen : List String) (prev : Option Ev),
      extractsMarkedFrom prev (otodomSearchScrape seen cards).2.2 = true) ∧
    (∀ (inputs : List (String × Option Details)) (seen : List String)
      (link : String) (d : Option Details), (link, d) ∈ inputs →
      listingId link ∈ (olxScrape seen inputs).1) ∧
    (∀ (cards seen : List String) (i : String), i ∈ cards → i ≠ "" →
      Ev.extract i ∈ otodomMain cards seen) ∧
    (∀ (cards seen : List String) (i : String),
      Ev.mark i ∈ otodomMain cards seen →
      occursBefore Ev.notify (Ev.mark i) (otodomMain cards seen) = true) := by
  refine ⟨olxScrape_no_extract, otodomSearchScrape_no_extract,
    olxScrape_marked, otodomSearchScrape_marked, olxScrape_mem_seen,
    fun cards seen i hc hne => ?_, fun cards seen i hm => ?_⟩
  · unfold otodomMain
    apply List.mem_append_left
    simp only [List.mem_map]
    exact ⟨i, by simp [otodomExtractedIds, hc, hne], rfl⟩
  · unfold otodomMain at hm ⊢
    cases hic : (otodomNewIds cards seen).isEmpty
    · rw [hic] at hm
      simp only [Bool.false_eq_true, if_false] at hm
      have hmm : Ev.mark i ∈ (otodomNewIds cards seen).map Ev.mark ++ [Ev.persist] := by
        rcases List.mem_append.mp hm with h1 | h1
        · exact absurd h1 (by simp [List.mem_map])
        · rcases List.mem_cons.mp h1 with he | h2
          · exact absurd he (by simp)
          · exact h2
      apply occursBefore_append_right
      simp [occursBefore, hmm]
    · rw [hic] at hm
      simp [List.mem_map] at hm

/-- Claim C3 witness: the olx pipeline facts applied at concrete inputs —
a seen identifier is never extracted, and a fresh one ends in the final
seen list. -/
theorem dedup_immediate_mark_witness :
    Ev.extract "b" ∉ (olxScrape ["b"] [("x/b", none)]).2.2 ∧
    listingId "y/c" ∈ (olxScrape [] [("y/c", none)]).1 :=
  ⟨dedup_immediate_mark_amended.1 [("x/b", none)] ["b"] "b" (by simp),
    dedup_immediate_mark_amended.2.2.2.2.1 [("y/c", none)] [] "y/c" none (by simp)⟩

/-- Claim C5 counterexample: with one accepted listing, olx_scraper's main
notifies before persisting — the trace places Ev.notify strictly before
Ev.persist and never the other way — refuting "handed to the message sink
only after the persist". -/
theorem persist_order_cex :
    Ev.notify ∈ olxMain [("x/l1", some ⟨"t", 0, "w", none, none, "2/5", true, true⟩)] [] [] ∧
    occursBefore Ev.notify Ev.persist
      (olxMain [("x/l1", some ⟨"t", 0, "w", none, none, "2/5", true, true⟩)] [] []) = true ∧
    occursBefore Ev.persist Ev.notify
      (olxMain [("x/l1", some ⟨"t", 0, "w", none, none, "2/5", true, true⟩)] [] []) = false := by
  decide

theorem occursBefore_persist_tail (ids : List String) :
    occursBefore Ev.persist Ev.notify
      (Ev.notify :: (List.map Ev.mark ids ++ [Ev.persist])) = false := by
  simp only [occursBefore]
  rw [occursBefore_append_not_mem _ _ _ _ (by simp [List.mem_map])]
  simp [occursBefore]

/-- Claim C5 as amended: olx_scraper's main persists the ledger
unconditionally, but hands the output list to the message sink (when
non-empty) before the persist, never after; otodom_scraper's main also
notifies before persisting, and skips the persist entirely when no new
listing exists. -/
theorem persist_order_amended :
    (∀ (inputs : List (String × Option Details)) (cards : List Card)
      (seen0 : List String), Ev.persist ∈ olxMain inputs cards seen0) ∧
    (∀ inputs cards seen0, occursBefore Ev.persist Ev.notify
      (olxMain inputs cards seen0) = false) ∧
    (∀ inputs cards seen0, Ev.notify ∈ olxMain inputs cards seen0 →
      occursBefore Ev.notify Ev.persist (olxMain inputs cards seen0) = true) ∧
    (∀ inputs cards seen0, olxMainOut inputs cards seen0 ≠ [] →
      Ev.notify ∈ olxMain inputs cards seen0) ∧
    (∀ cards seen0 : List String, otodomNewIds cards seen0 = [] →
      Ev.persist ∉ otodomMain cards seen0) ∧
    (∀ cards seen0 : List String, Ev.notify ∈ otodomMain cards seen0 →
      occursBefore Ev.notify Ev.persist (otodomMain cards seen0) = true) ∧
    (∀ cards seen0 : List String,
      occursBefore Ev.persist Ev.notify (otodomMain cards seen0) = false) := by
  refine ⟨fun inputs cards seen0 => ?_, fun inputs cards seen0 => ?_,
    fun inputs cards seen0 h => ?_, fun inputs cards seen0 h => ?_,
    fun cards seen0 h => ?_, fun cards seen0 h => ?_, fun cards seen0 => ?_⟩
  · rw [olxMain_eq]
    simp
  · rw [olxMain_eq]
    rw [occursBefore_append_not_mem _ _ _ _ (olxScrape_no_misc inputs seen0).2,
      occursBefore_append_not_mem _ _ _ _
        (otodomSearchScrape_no_misc cards (olxScrape seen0 inputs).1).2]
    cases hic : ((olxScrape seen0 inputs).2.1 ++
        (otodomSearchScrape (olxScrape seen0 inputs).1 cards).2.1).isEmpty <;>
      simp [occursBefore]
  · rw [olxMain_eq] at h ⊢
    cases hic : ((olxScrape seen0 inputs).2.1 ++
        (otodomSearchScrape (olxScrape seen0 inputs).1 cards).2.1).isEmpty
    · rw [hic] at h
      apply occursBefore_append_right
      apply occursBefore_append_right
      simp [occursBefore]
    · rw [hic] at h
      simp only [if_true, List.nil_append] at h
      exfalso
      rcases List.mem_append.mp h with h1 | h1
      · exact (olxScrape_no_misc inputs seen0).1 h1
      · rcases List.mem_append.mp h1 with h2 | h2
        · exact (otodomSearchScrape_no_misc cards (olxScrape seen0 inputs).1).1 h2
        · simp at h2
  · rw [olxMainOut_eq] at h
    rw [olxMain_eq]
    have hic : ((olxScrape seen0 inputs).2.1 ++
        (otodomSearchScrape (olxScrape seen0 inputs).1 cards).2.1).isEmpty = false := by
      cases hic2 : ((olxScrape seen0 inputs).2.1 ++
          (otodomSearchScrape (olxScrape seen0 inputs).1 cards).2.1).isEmpty
      · rfl
      · exact absurd (List.isEmpty_iff.mp hic2) h
    rw [hic]
    simp
  · unfold otodomMain
    rw [h]
    simp [List.mem_map]
  · unfold otodomMain at h ⊢
    cases hic : (otodomNewIds cards seen0).isEmpty
    · apply occursBefore_append_right
      simp [occursBefore]
    · rw [hic] at h
      simp [List.mem_map] at h
  · unfold otodomMain
    rw [occursBefore_append_not_mem _ _ _ _ (by simp [List.mem_map])]
    cases hic : (otodomNewIds cards seen0).isEmpty
    · simpa using occursBefore_persist_tail (otodomNewIds cards seen0)
    · simp [occursBefore]

/-- Claim C5 witness: the amended persist facts applied at concrete runs —
persist always happens in olx main, and otodom main skips the persist when
every card is already seen. -/
theorem persist_order_witness :
    Ev.persist ∈ olxMain [] [] [] ∧
    Ev.persist ∉ otodomMain ["z"] ["z"] :=
  ⟨persist_order_amended.1 [] [] [],
    persist_order_amended.2.2.2.2.1 ["z"] ["z"] (by decide)⟩

/-- Claim C7: floor validity is true when the parsed current floor is
unknown, false when current ≤ 1, false when total is known and
current ≥ total, and true otherwise; `parter/4` parses to (0,4) and is
invalid, `3/8` to (3,8) and is valid, `8/8` is invalid, and the
unparseable `unknown` parses to (None,None) and is valid. -/
theorem floor_validity_policy :
    (∀ s : String, is_floor_valid s = floorPolicySpec (parse_floor s)) ∧
    parse_floor "parter/4" = (some 0, some 4) ∧ is_floor_valid "parter/4" = false ∧
    parse_floor "3/8" = (some 3, some 8) ∧ is_floor_valid "3/8" = true ∧
    parse_floor "8/8" = (some 8, some 8) ∧ is_floor_valid "8/8" = false ∧
    parse_floor "unknown" = (none, none) ∧ is_floor_valid "unknown" = true := by
  refine ⟨fun s => ?_, by decide, by decide, by decide, by decide, by decide,
    by decide, by decide, by decide⟩
  unfold is_floor_valid floorPolicySpec
  rcases parse_floor s with ⟨_ | c, _ | t⟩
  · rfl
  · rfl
  · simp
  · by_cases h : c ≤ 1 <;> simp [h]

/-- Claim C10: a descriptor of the shape `<digits>/parter` parses to
(current = value of the digits, total = 0), and any descriptor whose
parsed total is 0 is judged invalid — current ≤ 1 fails the low-floor
check, current ≥ 2 satisfies current ≥ 0 = total. -/
theorem floor_total_ground_invalid :
    (∀ (s : String) (c : Int), parse_floor s = (some c, some 0) →
      is_floor_valid s = false) ∧
    (∀ ds : List Char, isDigits ds = true →
      parse_floor (String.mk (ds ++ '/' :: "parter".data)) =
        (some ((digitsToNat ds : Int)), some 0)) ∧
    parse_floor "5/parter" = (some 5, some 0) ∧ is_floor_valid "5/parter" = false ∧
    is_floor_valid "0/parter" = false ∧ is_floor_valid "1/parter" = false := by
  refine ⟨fun s c h => ?_, fun ds h => ?_, by decide, by decide, by decide, by decide⟩
  · unfold is_floor_valid
    rw [h]
    by_cases hc : c ≤ 1
    · simp [hc]
    · simp only [if_neg hc]
      rw [if_pos (by omega)]
  · have hds : ds ≠ [] ∧ ∀ c ∈ ds, c.isDigit = true := by
      simpa [isDigits, List.all_eq_true, List.isEmpty_iff] using h
    obtain ⟨hne, hdig⟩ := hds
    have hlen : 1 ≤ ds.length := by
      cases ds with
      | nil => exact absurd rfl hne
      | cons a t => simp
    have hempty : String.mk (ds ++ '/' :: "parter".data) ≠ "" := by
      intro he
      have := congrArg String.data he
      simp at this
    have hna : String.mk (ds ++ '/' :: "parter".data) ≠ "N/A" := by
      intro he
      have hd := congrArg String.data he
      have := congrArg List.length hd
      simp at this
    have hwhite : ∀ c ∈ ds ++ '/' :: "parter".data, isPyWhite c = false := by
      intro c hc
      have hp : ∀ x ∈ '/' :: "parter".data, isPyWhite x = false := by decide
      rcases List.mem_append.mp hc with hin | hin
      · exact isPyWhite_of_digit c (hdig c hin)
      · exact hp c hin
    have hmap : (ds ++ '/' :: "parter".data).map lowerChar = ds ++ '/' :: "parter".data := by
      rw [List.map_append, map_lowerChar_digits ds hdig]
      have : List.map lowerChar ('/' :: "parter".data) = '/' :: "parter".data := by decide
      rw [this]
    have hslash : '/' ∉ ds := fun hm => ne_slash_of_digit '/' (hdig '/' hm) rfl
    have hsplit : splitOnChar '/' (ds ++ '/' :: "parter".data) =
        ds :: splitOnChar '/' "parter".data :=
      splitOnChar_append_sep '/' ds "parter".data hslash
    have hparter : splitOnChar '/' "parter".data = ["parter".data] := by decide
    have hnp : ds ≠ "parter".data := by
      intro he
      have : ('p' : Char).isDigit = true := hdig 'p' (by rw [he]; decide)
      exact absurd this (by decide)
    have htok : floorTok ds = some ((digitsToNat ds : Int)) := by
      unfold floorTok
      rw [if_neg hnp, if_pos h]
    have hpt : floorTok "parter".data = some 0 := by decide
    unfold parse_floor
    rw [if_neg (by simp [hempty, hna])]
    simp only [String.data]
    rw [pyStrip_eq_self _ hwhite, hmap, hsplit, hparter]
    simp [htok, hpt]

/-- Claim C6: a description blob matching any negation phrase
(`nie ma wind`, `brak wind`, `bez wind`) yields has_elevator = false even
when positive elevator keywords are present; the page-source fallback
negation family likewise forces false; in particular a text containing
both `winda` and `brak windy` yields false. -/
theorem elevator_negation_precedence :
    (∀ desc page : String, containsAnyStr desc negPhrases = true →
      hasElevatorExtract desc page = false) ∧
    (∀ desc page : String, containsAnyStr desc negPhrases = false →
      containsAnyStr desc posElevatorWords = false →
      containsAnyStr page negPhrasesPage = true →
      hasElevatorExtract desc page = false) ∧
    containsSub "w budynku winda, ale brak windy w oficynie".data "winda".data = true ∧
    hasElevatorExtract "w budynku winda, ale brak windy w oficynie" "" = false := by
  refine ⟨fun desc page h => ?_, fun desc page h1 h2 h3 => ?_, by decide, by decide⟩
  · simp [hasElevatorExtract, h]
  · simp [hasElevatorExtract, h1, h2, h3]

/-- Claim C8 counterexample: the claim says a string that fails to resolve
to a positive value yields 0 rather than an error, but on `"12\t34"` the
matched group keeps the tab (only spaces are removed), and the float
conversion raises instead of yielding 0. -/
theorem numeric_normalization_cex :
    extract_number "12\t34" = Except.error () := by decide

/-- Claim C8 as amended: whitespace used as thousands grouping is stripped
and the first remaining comma is a decimal point (`1 234,5` → 1234.5,
`12,5` → 12.5, `12 500` → 12500), and a string with no digit or
whitespace character yields 0; but a matched number with embedded
non-space whitespace (such as a tab between digits) raises an error
instead of yielding 0. -/
theorem numeric_normalization_amended :
    extract_number "1 234,5" = Except.ok ((2469 : ℚ) / 2) ∧
    extract_number "12,5" = Except.ok ((25 : ℚ) / 2) ∧
    extract_number "12 500" = Except.ok 12500 ∧
    (∀ text : String, (∀ c ∈ text.data, isNumWhite c = false) →
      extract_number text = Except.ok 0) ∧
    extract_number "12\t34" = Except.error () := by
  refine ⟨by with_unfolding_all rfl, by with_unfolding_all rfl,
    by with_unfolding_all rfl, fun text h => ?_, by decide⟩
  have h2 : regexSearch (List.filter (fun c => decide (c ≠ ' ')) text.data) = none :=
    regexSearch_none _ (fun c hc => h c (List.mem_of_mem_filter hc))
  simp only [extract_number, h2]

/-- Claim C9: loading any enumeration of a persisted identifier set yields
exactly that set (order in the file is irrelevant), and after `mark i` a
persist→load cycle still contains `i`. -/
theorem ledger_roundtrip :
    (∀ (S : Finset String) (l : List String), (∀ x, x ∈ l ↔ x ∈ S) →
      load_seen_listings l = S) ∧
    (∀ S : Finset String, load_seen_listings (save_seen_listings S) = S) ∧
    (∀ (i : String) (S : Finset String) (l : List String),
      (∀ x, x ∈ l ↔ x ∈ mark i S) →
      ledgerContains i (load_seen_listings l) = true) ∧
    (∀ (i : String) (S : Finset String), ledgerContains i (mark i S) = true) := by
  refine ⟨fun S l h => ?_, fun S => ?_, fun i S l h => ?_, fun i S => ?_⟩
  · ext x
    simp [load_seen_listings, h x]
  · simp [load_seen_listings, save_seen_listings, Finset.sort_toFinset]
  · simp only [ledgerContains, load_seen_listings, decide_eq_true_eq, List.mem_toFinset]
    exact (h i).mpr (by simp [mark])
  · simp [ledgerContains, mark]

/-- Claim C9 witness: the round-trip and mark facts evaluated at a
concrete ledger. -/
theorem ledger_roundtrip_witness :
    ledgerContains "id1" (load_seen_listings ["id2", "id1"]) = true :=
  ledger_roundtrip.2.2.1 "id1" {"id2"} ["id2", "id1"] (by
    intro x
    simp [mark]
    tauto)

/-- Claim C4 counterexample: the claim says an extracted price below the
~10000 threshold is discarded (treated as not found), but a selector price
of 5000 is returned as the price when no later source overwrites it. -/
theorem price_floor_cex :
    detailPrice [(true, 5000)] none = 5000 ∧ (5000 : ℚ) < 10000 ∧ (5000 : ℚ) ≠ 0 := by
  refine ⟨by decide, by norm_num, by norm_num⟩

/-- Claim C4 as amended: a price at or below 10000 does not stop the
selector search (a later selector may overwrite it) and the page-source
fallback runs only while the price is still 0; but a below-threshold
non-zero price from the last successful source is returned, not discarded. -/
theorem price_floor_amended :
    (∀ (p0 v : ℚ) (rest : List (Bool × ℚ)), 10000 < v →
      selectorPrice p0 ((true, v) :: rest) = v) ∧
    (∀ (p0 v : ℚ) (rest : List (Bool × ℚ)), v ≤ 10000 →
      selectorPrice p0 ((true, v) :: rest) = selectorPrice v rest) ∧
    (∀ (sel : List (Bool × ℚ)) (fb : Option ℚ), selectorPrice 0 sel ≠ 0 →
      detailPrice sel fb = selectorPrice 0 sel) ∧
    (∀ sel : List (Bool × ℚ), selectorPrice 0 sel = 0 →
      detailPrice sel none = 0 ∧ ∀ v : ℚ, detailPrice sel (some v) = v) ∧
    detailPrice [(true, 5000)] none = 5000 := by
  refine ⟨fun p0 v rest h => ?_, fun p0 v rest h => ?_, fun sel fb h => ?_,
    fun sel h => ⟨?_, fun v => ?_⟩, by decide⟩
  · simp [selectorPrice, h]
  · simp [selectorPrice, not_lt.mpr h]
  · simp [detailPrice, h]
  · simp [detailPrice, h]
  · simp [detailPrice, h]

/-- Claim C4 witness: the amended break/overwrite behavior evaluated on
concrete selector lists. -/
theorem price_floor_witness :
    selectorPrice 0 [(true, 450000), (true, 7)] = 450000 ∧
    selectorPrice 0 [(true, 7), (true, 450000)] = selectorPrice 7 [(true, 450000)] :=
  ⟨price_floor_amended.1 0 450000 [(true, 7)] (by norm_num),
    price_floor_amended.2.1 0 7 [(true, 450000)] (by norm_num)⟩

/-- Claim C6 witness: the negation-precedence rule applied at a concrete
blob containing both a positive keyword and a negation phrase. -/
theorem elevator_negation_witness :
    hasElevatorExtract "jest winda? nie ma windy" "cokolwiek winda" = false :=
  elevator_negation_precedence.1 "jest winda? nie ma windy" "cokolwiek winda" (by decide)

/-- Claim C10 witness: the digit-string parse fact and the invalidity fact
evaluated at the descriptor `7/parter`. -/
theorem floor_total_ground_witness :
    isDigits ['7'] = true ∧
    parse_floor (String.mk (['7'] ++ '/' :: "parter".data)) =
      (some ((digitsToNat ['7'] : Int)), some 0) :=
  ⟨by decide, floor_total_ground_invalid.2.1 ['7'] (by decide)⟩

/-- Claim C8 witness: the no-digit fallback of the amended claim applied
to a concrete letters-only string. -/
theorem numeric_normalization_witness :
    extract_number "cena" = Except.ok 0 :=
  numeric_normalization_amended.2.2.2.1 "cena" (by decide)

end ApartmentFinder

